import Mathlib

/-!
Verification of `gibson2/core/physics/interactive_objects.py`.

The development shallowly embeds the two algorithmically relevant parts of the
module:

* the `Object` base class (body handle, loaded flag, pose accessors backed by
  the physics engine's `getBasePositionAndOrientation` /
  `resetBasePositionAndOrientation` calls), and
* the bounding-box rescaling loop in `InteractiveObj2.__init__`
  (lines 259-322), which walks the kinematic tree stored as an XML element
  tree, multiplying mesh scales, origin translations and joint axes by a
  propagated scale vector.

Numeric values are modelled as real numbers (the source computes with numpy
floats); XML attribute strings holding vectors are modelled as vector-valued
attributes, abstracting the `split`/`join` serialisation the source performs
on every access.
-/

noncomputable section

/-- A 3-vector of reals, standing for the numpy arrays of length 3 used by
the source. -/
@[ext]
structure Vec3 where
  x : ℝ
  y : ℝ
  z : ℝ

/-- Elementwise product, `np.multiply`. -/
def vmul (a b : Vec3) : Vec3 := ⟨a.x * b.x, a.y * b.y, a.z * b.z⟩

/-- Elementwise quotient, `np.divide`.  In the real-number model division by
zero yields zero; the float code would produce non-finite values instead but
raises no exception either way. -/
def vdiv (a b : Vec3) : Vec3 := ⟨a.x / b.x, a.y / b.y, a.z / b.z⟩

/-- Elementwise absolute value, `np.absolute`. -/
def vabs (a : Vec3) : Vec3 := ⟨|a.x|, |a.y|, |a.z|⟩

/-- Euclidean norm, `np.linalg.norm`. -/
def norm3 (a : Vec3) : ℝ := Real.sqrt (a.x ^ 2 + a.y ^ 2 + a.z ^ 2)

/-- Division of a vector by a scalar, the source's `new_axis_xyz /= norm`. -/
def vdivS (a : Vec3) (c : ℝ) : Vec3 := ⟨a.x / c, a.y / c, a.z / c⟩

/-- Rotation about the x axis by an angle. -/
def rotX (a : ℝ) (v : Vec3) : Vec3 :=
  ⟨v.x, Real.cos a * v.y - Real.sin a * v.z, Real.sin a * v.y + Real.cos a * v.z⟩

/-- Rotation about the y axis by an angle. -/
def rotY (a : ℝ) (v : Vec3) : Vec3 :=
  ⟨Real.cos a * v.x + Real.sin a * v.z, v.y, -Real.sin a * v.x + Real.cos a * v.z⟩

/-- Rotation about the z axis by an angle. -/
def rotZ (a : ℝ) (v : Vec3) : Vec3 :=
  ⟨Real.cos a * v.x - Real.sin a * v.y, Real.sin a * v.x + Real.cos a * v.y, v.z⟩

/-- Modelled from the spec: `gibson2.utils.utils.rotate_vector_3d` is imported
by the source but its definition is not among the given sources.  Per spec
section 4.1 it applies a 3D Euler rotation composed in a fixed axis order,
with `cck` selecting the counter-clockwise winding.  We fix the conventional
extrinsic x-y-z order `Rz(yaw) * Ry(pitch) * Rx(roll)`, negating the angles
for the clockwise winding. -/
def rotate_vector_3d (v : Vec3) (r p yw : ℝ) (cck : Bool) : Vec3 :=
  let sgn : ℝ := if cck then 1 else -1
  rotZ (sgn * yw) (rotY (sgn * p) (rotX (sgn * r) v))

/-- An XML element as manipulated through `xml.etree.ElementTree`: a tag,
string-valued attributes (names and link references), vector-valued
attributes (the numeric triples the rescaler reads and writes: `scale`,
`xyz`, `rpy`), and the child elements in document order. -/
inductive Elem where
  | mk (tag : String) (sattrs : List (String × String))
       (vattrs : List (String × Vec3)) (children : List Elem)

def Elem.tag : Elem → String
  | .mk t _ _ _ => t

def Elem.sattrs : Elem → List (String × String)
  | .mk _ sa _ _ => sa

def Elem.vattrs : Elem → List (String × Vec3)
  | .mk _ _ v _ => v

def Elem.children : Elem → List Elem
  | .mk _ _ _ c => c

/-- Attribute lookup in an association list (`element.attrib[k]`, returning
`none` where Python would raise `KeyError`). -/
def getA {κ α : Type} [DecidableEq κ] (l : List (κ × α)) (k : κ) : Option α :=
  match l with
  | [] => none
  | (k', v) :: t => if k' = k then some v else getA t k

/-- Attribute update in an association list (`element.attrib[k] = v` /
`element.set(k, v)`): replaces the first binding of the key, or appends a new
binding. -/
def setA {κ α : Type} [DecidableEq κ] (l : List (κ × α)) (k : κ) (v : α) :
    List (κ × α) :=
  match l with
  | [] => [(k, v)]
  | (k', w) :: t => if k' = k then (k, v) :: t else (k', w) :: setA t k v

/-- First element with the given index in a list (`list[i]` guarded). -/
def nth {α : Type} : List α → Nat → Option α
  | [], _ => none
  | a :: _, 0 => some a
  | _ :: l, n + 1 => nth l n

def getS (e : Elem) (k : String) : Option String := getA e.sattrs k

def getV (e : Elem) (k : String) : Option Vec3 := getA e.vattrs k

/-- The body of the source's mesh loop (lines 276-283): if the element is a
`mesh`, multiply an existing `scale` attribute elementwise by the current
scale, or set the attribute to the current scale if absent. -/
def gMesh (s : Vec3) (t : String) (v : List (String × Vec3)) :
    List (String × Vec3) :=
  if t = "mesh" then
    match getA v "scale" with
    | some c => setA v "scale" (vmul c s)
    | none => setA v "scale" s
  else v

/-- The body of the source's origin loop (lines 285-288 and 299-302): if the
element is an `origin`, multiply its `xyz` attribute elementwise by the
current scale.  (An `origin` without an `xyz` attribute would raise
`KeyError` in the source; the embedding leaves it unchanged, and no theorem
below concerns such elements.) -/
def gOrigin (s : Vec3) (t : String) (v : List (String × Vec3)) :
    List (String × Vec3) :=
  if t = "origin" then
    match getA v "xyz" with
    | some c => setA v "xyz" (vmul c s)
    | none => v
  else v

/-- The body of the source's axis loop (lines 312-316): if the element is an
`axis`, multiply its `xyz` attribute elementwise by the current scale and
divide by the resulting Euclidean norm. -/
def gAxis (s : Vec3) (t : String) (v : List (String × Vec3)) :
    List (String × Vec3) :=
  if t = "axis" then
    match getA v "xyz" with
    | some c => setA v "xyz" (vdivS (vmul c s) (norm3 (vmul c s)))
    | none => v
  else v

/-- One pass of the link-processing body over a single element: the mesh
update followed by the origin update (the element's tag selects at most one
of the two). -/
def gLink (s : Vec3) (t : String) (v : List (String × Vec3)) :
    List (String × Vec3) :=
  gOrigin s t (gMesh s t v)

/-- Iterate a function a given number of times. -/
def iterN {α : Type} : Nat → (α → α) → α → α
  | 0, _, a => a
  | n + 1, f, a => f (iterN n f a)

/-- Apply an attribute update to every element of a subtree exactly once.
This is the semantics of a single non-nested `for x in element.iter(tag)`
loop in the source (`ElementTree.Element.iter` yields the element itself and
all of its descendants in document order). -/
def mapEl (g : String → List (String × Vec3) → List (String × Vec3)) :
    Elem → Elem
  | .mk t sa v c => .mk t sa (g t v) (mapElL c)
where mapElL : List Elem → List Elem
  | [] => []
  | e :: es => mapEl g e :: mapElL es

/-- The source's link-processing step (lines 274-288) is a *nested*
iteration: `for xml_child in parent_link.iter():` runs the mesh loop and the
origin loop over the entire subtree of `xml_child`, and since `iter()` yields
the element itself and all descendants, an element at depth `d` below the
link lies in the subtree of exactly `d + 1` of the outer loop's elements (its
ancestors within the link, and itself).  Updates to distinct elements are
independent and the updates a single element receives arrive in the same
order, so the net effect is that the element at depth `d` receives the
mesh/origin update `d + 1` times.  `applyLinkAt s d` applies the update
`d + 1` times to the element's own attributes and recurses with `d + 1`. -/
def applyLinkAt (s : Vec3) : Nat → Elem → Elem
  | d, .mk t sa v c => .mk t sa (iterN (d + 1) (gLink s t) v) (applyLinkAtL (d + 1) c)
where applyLinkAtL : Nat → List Elem → List Elem
  | _, [] => []
  | d, e :: es => applyLinkAt s d e :: applyLinkAtL d es

/-- Collect the `scale` attributes of every `mesh` element of a tree, in
document order (`none` for a mesh that has no `scale` attribute). -/
def meshScales : Elem → List (Option Vec3)
  | .mk t _ v c => (if t = "mesh" then [getA v "scale"] else []) ++ meshScalesL c
where meshScalesL : List Elem → List (Option Vec3)
  | [] => []
  | e :: es => meshScales e ++ meshScalesL es

/-- Collect the `xyz` attributes of every `origin` element of a tree, in
document order. -/
def originXyzs : Elem → List (Option Vec3)
  | .mk t _ v c => (if t = "origin" then [getA v "xyz"] else []) ++ originXyzsL c
where originXyzsL : List Elem → List (Option Vec3)
  | [] => []
  | e :: es => originXyzs e ++ originXyzsL es

/-- Collect the `xyz` attributes of every `axis` element of a tree, in
document order. -/
def axisXyzs : Elem → List (Option Vec3)
  | .mk t _ v c => (if t = "axis" then [getA v "xyz"] else []) ++ axisXyzsL c
where axisXyzsL : List Elem → List (Option Vec3)
  | [] => []
  | e :: es => axisXyzs e ++ axisXyzsL es

/-- Embedding of `element.find(tag)`: the first direct child with the given tag. -/
def findSub (e : Elem) (tg : String) : Option Elem :=
  e.children.find? (fun c => c.tag == tg)

/-- Reads `joint.find("parent").attrib["link"]`. -/
def jointParentLink (j : Elem) : Option String :=
  (findSub j "parent").bind (fun c => getS c "link")

/-- Reads `joint.find("child").attrib["link"]`. -/
def jointChildLink (j : Elem) : Option String :=
  (findSub j "child").bind (fun c => getS c "link")

/-- Index of the first direct child that is a `link` with the given name:
`[link for link in tree.findall("link") if link.attrib["name"] == name][0]`
(`findall` searches direct children of the root only).  `none` corresponds to
the `IndexError` the source raises when no such link exists. -/
def findLinkIdx (root : Elem) (n : String) : Option Nat :=
  root.children.findIdx? (fun c => c.tag == "link" && getS c "name" == some n)

/-- Indices (into the root's child list) of the joints whose parent link has
the given name: `[joint for joint in tree.findall("joint") if
joint.find("parent").attrib["link"] == name]`, keeping indices rather than
aliases so that in-place mutation can be expressed functionally. -/
def jointIdxs (root : Elem) (n : String) : List Nat :=
  go 0 root.children
where go : Nat → List Elem → List Nat
  | _, [] => []
  | k, c :: cs =>
    (if c.tag == "joint" && jointParentLink c == some n then [k] else []) ++
      go (k + 1) cs

/-- Replace the root's child at an index (in-place mutation of an aliased
subelement). -/
def setChild (e : Elem) (i : Nat) (c : Elem) : Elem :=
  .mk e.tag e.sattrs e.vattrs (e.children.set i c)

/-- Failures of the rescaling pass.  `linkNotFound` is the `IndexError` the
source raises when the next link name has no matching `link` element, and
`malformedJoint` the `AttributeError`/`KeyError` raised when a processed
joint lacks a `child` reference.  `fuelExhausted` marks traversal-bound
exhaustion, which on the acyclic trees the algorithm is specified for never
occurs (on a cyclic input the source would loop forever).  `malformedTree`
and `degenerateAxis` are the failures named by the specification; they exist
so the specification's claims can be stated, and the embedded code never
produces them. -/
inductive RErr where
  | linkNotFound
  | malformedJoint
  | fuelExhausted
  | malformedTree
  | degenerateAxis

/-- Result of the rescaling pass: the mutated tree, together with an
instrumentation trace recording the scale vector in effect when each link was
processed (`linkScales`) and the scale vector used for each global axis pass
(`axisScales`, one entry per joint iteration).  The `tree` component is
exactly the source's mutation; the traces record values of the source's local
`scale` variable. -/
structure ROut where
  tree : Elem
  linkScales : List Vec3
  axisScales : List Vec3

/-- Lines 304-309: if the (live) joint element has an `rpy` attribute,
rotate the scale vector by it (counter-clockwise winding) and take the
elementwise absolute value; otherwise the scale passes through unchanged. -/
def jfScale (s : Vec3) (j1 : Elem) : Vec3 :=
  match getV j1 "rpy" with
  | some rv => vabs (rotate_vector_3d s rv.x rv.y rv.z true)
  | none => s

/-- The body of `for joint_new in joint_news:` (lines 296-320) for a single
joint at child index `i`: scale the `xyz` of every `origin` in the joint
(lines 299-302), derive the possibly rotated scale (lines 304-309), run the
global axis pass over the whole tree with it (lines 311-316), and read the
next link name from the *first* matching joint's `child` (line 320,
`joint_news[0]`, at index `i0`). -/
def jointStep (i0 i : Nat) (t : Elem) (s : Vec3) :
    Except RErr (Elem × Vec3 × String) :=
  match nth t.children i with
  | none => .error .linkNotFound
  | some j =>
    let j1 := mapEl (gOrigin s) j
    let s1 := jfScale s j1
    let t2 := mapEl (gAxis s1) (setChild t i j1)
    match nth t2.children i0 with
    | none => .error .linkNotFound
    | some j0 =>
      match jointChildLink j0 with
      | none => .error .malformedJoint
      | some nm1 => .ok (t2, s1, nm1)

/-- The effect of one joint iteration on the propagated scale vector, read
off the original tree: rotate by the joint's `rpy` if it declares one.  Used
to characterise the net scale mutation of a whole joint loop. -/
def rotStep (t : Elem) (s : Vec3) (i : Nat) : Vec3 :=
  match (nth t.children i).bind (fun j => getV j "rpy") with
  | some rv => vabs (rotate_vector_3d s rv.x rv.y rv.z true)
  | none => s

/-- Loop `for joint_new in joint_news:` folded over the indices of all the
matching joints, threading the tree, the (mutated!) scale, the axis-pass
trace and the next link name. -/
def jointFold (i0 : Nat) :
    Elem → Vec3 → List Vec3 → Option String → List Nat →
    Except RErr (Elem × Vec3 × List Vec3 × Option String)
  | t, s, ax, nm, [] => .ok (t, s, ax, nm)
  | t, s, ax, _, i :: rest =>
    match jointStep i0 i t s with
    | .error e => .error e
    | .ok (t2, s1, nm1) => jointFold i0 t2 s1 (ax ++ [s1]) (some nm1) rest

/-- The `while parent_link_name != None:` loop (lines 271-322), with an
explicit traversal bound.  Each iteration locates the current link, runs the
nested mesh/origin pass over it, and processes the joints whose parent it is;
if there are none the loop ends.  On the acyclic trees the algorithm is
specified for, the bound chosen by `rescaleTree` is never exhausted. -/
def rescaleLoop :
    Nat → Elem → Vec3 → Option String → List Vec3 → List Vec3 →
    Except RErr ROut
  | _, t, _, none, ls, ax => .ok ⟨t, ls, ax⟩
  | 0, _, _, some _, _, _ => .error .fuelExhausted
  | fuel + 1, t, s, some n, ls, ax =>
    match findLinkIdx t n with
    | none => .error .linkNotFound
    | some i =>
      match nth t.children i with
      | none => .error .linkNotFound
      | some li =>
        let t1 := setChild t i (applyLinkAt s 0 li)
        match jointIdxs t1 n with
        | [] => rescaleLoop fuel t1 s none (ls ++ [s]) ax
        | i0 :: rest =>
          match jointFold i0 t1 s ax none (i0 :: rest) with
          | .error e => .error e
          | .ok (t2, s2, ax2, nm2) => rescaleLoop fuel t2 s2 nm2 (ls ++ [s]) ax2

/-- The bounding-box branch of `InteractiveObj2.__init__` (lines 259-322):
compute the base scale `np.divide(bounding_box, original_bbox)` — with no
validation of `original_bbox` — and run the propagation loop from
`base_link`.  The traversal bound `children + 2` exceeds the number of links
and is therefore never exhausted on the acyclic trees the algorithm is
specified for. -/
def rescaleTree (t : Elem) (bounding_box original_bbox : Vec3) :
    Except RErr ROut :=
  rescaleLoop (t.children.length + 2) t (vdiv bounding_box original_bbox)
    (some "base_link") [] []

/-- The round-trip operation of the specification's testable property: apply
the rescaler with a target bounding box, then apply it again to the result
with the boxes swapped, so that the second pass's base scale is the
elementwise inverse of the first's. -/
def roundTrip (t : Elem) (bounding_box original_bbox : Vec3) :
    Except RErr Elem :=
  match rescaleTree t bounding_box original_bbox with
  | .error e => .error e
  | .ok o1 =>
    match rescaleTree o1.tree original_bbox bounding_box with
    | .error e => .error e
    | .ok o2 => .ok o2.tree

/-- Orientation quaternion (xyzw), carried opaquely. -/
structure Vec4 where
  x : ℝ
  y : ℝ
  z : ℝ
  w : ℝ

/-- A simulated body's pose, owned by the physics engine. -/
structure Pose where
  pos : Vec3
  orn : Vec4

/-- The physics engine's state: body poses keyed by body unique id, and the
next id `createMultiBody` would assign. -/
structure Engine where
  bodies : List (Nat × Pose)
  nextUid : Nat

/-- Failures of a pose operation.  `notLoadedError` is the failure named by
the specification for pose operations on an unloaded object; the embedded
module never raises it — it performs no loaded-state check, so the failure
that actually occurs is `engineError`, the engine call rejecting the null or
unknown body handle. -/
inductive PoseErr where
  | notLoadedError
  | engineError

/-- Engine call `p.getBasePositionAndOrientation(bodyUniqueId)`: fails when the handle is
`None` (the module passes `self.body_id` unchecked) or names no body. -/
def getBasePositionAndOrientation (e : Engine) (bid : Option Nat) :
    Except PoseErr Pose :=
  match bid with
  | none => .error .engineError
  | some i =>
    match getA e.bodies i with
    | some ps => .ok ps
    | none => .error .engineError

/-- Engine call `p.resetBasePositionAndOrientation(bodyUniqueId, pos, orn)`. -/
def resetBasePositionAndOrientation (e : Engine) (bid : Option Nat)
    (pos : Vec3) (orn : Vec4) : Except PoseErr Engine :=
  match bid with
  | none => .error .engineError
  | some i =>
    match getA e.bodies i with
    | some _ => .ok ⟨setA e.bodies i ⟨pos, orn⟩, e.nextUid⟩
    | none => .error .engineError

/-- The state a PlacedObject owns: `self.body_id` and `self.loaded`, per
`Object.__init__`. -/
structure ObjSt where
  body_id : Option Nat
  loaded : Bool

/-- State set by `Object.__init__`: `self.body_id = None; self.loaded = False`. -/
def objInit : ObjSt := ⟨none, false⟩

/-- Embedding of `Object.load`: if already loaded return the stored handle; otherwise call
the variant's `_load` (abstracted as `ld`, the engine creation call, which
returns the updated engine and the new body id), store the handle, set the
flag, and return the handle. -/
def load (ld : Engine → Engine × Nat) (o : ObjSt) (e : Engine) :
    ObjSt × Engine × Option Nat :=
  if o.loaded then (o, e, o.body_id)
  else
    let r := ld e
    (⟨some r.2, true⟩, r.1, some r.2)

/-- A concrete `_load` in the style of the subclasses' `createMultiBody`
calls: create a body with a given pose and return the fresh id. -/
def mkBody (ps : Pose) : Engine → Engine × Nat :=
  fun e => (⟨(e.nextUid, ps) :: e.bodies, e.nextUid + 1⟩, e.nextUid)

/-- Embedding of `Object.get_position`: engine query on `self.body_id`, no state check. -/
def get_position (o : ObjSt) (e : Engine) : Except PoseErr Vec3 :=
  (getBasePositionAndOrientation e o.body_id).map Pose.pos

/-- Embedding of `Object.get_orientation`: engine query on `self.body_id`, no state
check. -/
def get_orientation (o : ObjSt) (e : Engine) : Except PoseErr Vec4 :=
  (getBasePositionAndOrientation e o.body_id).map Pose.orn

/-- Embedding of `Object.set_position`: read the old orientation, then reset the pose to
the new position with the old orientation. -/
def set_position (o : ObjSt) (e : Engine) (pos : Vec3) :
    Except PoseErr Engine :=
  match getBasePositionAndOrientation e o.body_id with
  | .error err => .error err
  | .ok ps => resetBasePositionAndOrientation e o.body_id pos ps.orn

/-- Embedding of `Object.set_orientation`: read the old position, then reset the pose to
the old position with the new orientation. -/
def set_orientation (o : ObjSt) (e : Engine) (orn : Vec4) :
    Except PoseErr Engine :=
  match getBasePositionAndOrientation e o.body_id with
  | .error err => .error err
  | .ok ps => resetBasePositionAndOrientation e o.body_id ps.pos orn

/-- Embedding of `Object.set_position_orientation`. -/
def set_position_orientation (o : ObjSt) (e : Engine) (pos : Vec3)
    (orn : Vec4) : Except PoseErr Engine :=
  resetBasePositionAndOrientation e o.body_id pos orn

/-- A vector with at least one nonzero component (nonzero magnitude). -/
def Vec3.nonzero (v : Vec3) : Prop := v.x ≠ 0 ∨ v.y ≠ 0 ∨ v.z ≠ 0

/-- The value the axis pass writes: scaled elementwise, then divided by the
norm of the scaled vector. -/
def axisNewVal (s c : Vec3) : Vec3 := vdivS (vmul c s) (norm3 (vmul c s))

/-- Composite effect of a sequence of axis passes on one collected axis
value. -/
def foldAxis (suf : List Vec3) (o : Option Vec3) : Option Vec3 :=
  suf.foldl (fun o s => o.map (axisNewVal s)) o

/-- Composite effect of a sequence of axis passes on one axis vector. -/
def foldAxisV (suf : List Vec3) (c : Vec3) : Vec3 :=
  suf.foldl (fun c s => axisNewVal s c) c

/-- A single-link tree: `base_link` owning one mesh (no `scale` attribute)
as a direct child. -/
def T1 : Elem :=
  .mk "robot" [] []
    [.mk "link" [("name", "base_link")] [] [.mk "mesh" [] [] []]]

/-- A tree whose `base_link` has two outgoing joints: the first declares no
rotation, the second declares `rpy = (0, 0, pi/2)`. -/
def T2 : Elem :=
  .mk "robot" [] []
    [.mk "link" [("name", "base_link")] [] [],
     .mk "joint" [("name", "j1")] []
       [.mk "parent" [("link", "base_link")] [] [],
        .mk "child" [("link", "l1")] [] [],
        .mk "origin" [] [("xyz", ⟨1, 1, 1⟩)] []],
     .mk "joint" [("name", "j2")] [("rpy", ⟨0, 0, Real.pi / 2⟩)]
       [.mk "parent" [("link", "base_link")] [] [],
        .mk "child" [("link", "l2")] [] []],
     .mk "link" [("name", "l1")] [] [],
     .mk "link" [("name", "l2")] [] []]

/-- A two-link chain with one rotation-free joint carrying a unit motion
axis `(1,0,0)`. -/
def TW7 : Elem :=
  .mk "robot" [] []
    [.mk "link" [("name", "base_link")] [] [],
     .mk "joint" [("name", "j1")] []
       [.mk "parent" [("link", "base_link")] [] [],
        .mk "child" [("link", "l1")] [] [],
        .mk "axis" [] [("xyz", ⟨1, 0, 0⟩)] []],
     .mk "link" [("name", "l1")] [] []]

/-- A two-link chain whose joint carries a zero motion axis `(0,0,0)`. -/
def T9 : Elem :=
  .mk "robot" [] []
    [.mk "link" [("name", "base_link")] [] [],
     .mk "joint" [("name", "j1")] []
       [.mk "parent" [("link", "base_link")] [] [],
        .mk "child" [("link", "l1")] [] [],
        .mk "axis" [] [("xyz", ⟨0, 0, 0⟩)] []],
     .mk "link" [("name", "l1")] [] []]

/-- An angle with rational cosine 12/13 and sine 5/13. -/
def theta13 : ℝ := Real.arccos (12 / 13)

/-- A three-link chain: `base_link -> l1` through a joint rotated by
`theta13` about z, then `l1 -> l2` through a rotation-free joint; both
joints carry origin translation `(1,1,1)`. -/
def T3x : Elem :=
  .mk "robot" [] []
    [.mk "link" [("name", "base_link")] [] [],
     .mk "joint" [("name", "j1")] [("rpy", ⟨0, 0, theta13⟩)]
       [.mk "parent" [("link", "base_link")] [] [],
        .mk "child" [("link", "l1")] [] [],
        .mk "origin" [] [("xyz", ⟨1, 1, 1⟩)] []],
     .mk "joint" [("name", "j2")] []
       [.mk "parent" [("link", "l1")] [] [],
        .mk "child" [("link", "l2")] [] [],
        .mk "origin" [] [("xyz", ⟨1, 1, 1⟩)] []],
     .mk "link" [("name", "l1")] [] [],
     .mk "link" [("name", "l2")] [] []]

/-- A rotation-free two-link tree with arbitrary real-valued attributes:
`base_link` owns a mesh with an existing scale `c0`, a `visual` wrapper
holding a second mesh without a scale and an origin `o1`; the joint carries
an origin `oJ` and a motion axis `a`; the child link `l1` owns an origin
`o2`. -/
def T3 (c0 o1 oJ a o2 : Vec3) : Elem :=
  .mk "robot" [] []
    [.mk "link" [("name", "base_link")] []
       [.mk "mesh" [] [("scale", c0)] [],
        .mk "visual" [] []
          [.mk "mesh" [] [] [],
           .mk "origin" [] [("xyz", o1)] []]],
     .mk "joint" [("name", "j1")] []
       [.mk "parent" [("link", "base_link")] [] [],
        .mk "child" [("link", "l1")] [] [],
        .mk "origin" [] [("xyz", oJ)] [],
        .mk "axis" [] [("xyz", a)] []],
     .mk "link" [("name", "l1")] []
       [.mk "origin" [] [("xyz", o2)] []]]

/-- A default pose for witnesses. -/
def P0 : Pose := ⟨⟨0, 0, 0⟩, ⟨0, 0, 0, 1⟩⟩

/-- An empty engine state. -/
def E0 : Engine := ⟨[], 0⟩

/-- An engine state holding one body with id 0 at pose `P0`. -/
def E1 : Engine := ⟨[(0, P0)], 1⟩

theorem Elem.inductionOn {P : Elem → Prop}
    (h : ∀ t sa v c, (∀ x ∈ c, P x) → P (.mk t sa v c)) (e : Elem) : P e := by
  have key : ∀ n e, sizeOf e ≤ n → P e := by
    intro n
    induction n with
    | zero =>
      intro e he
      cases e with
      | mk t sa v c => simp at he
    | succ n ih =>
      intro e he
      cases e with
      | mk t sa v c =>
        apply h
        intro x hx
        apply ih
        have hlt := List.sizeOf_lt_of_mem hx
        simp at he
        omega
  exact key (sizeOf e) e le_rfl

theorem getA_setA_self {κ α : Type} [DecidableEq κ] (l : List (κ × α))
    (k : κ) (v : α) : getA (setA l k v) k = some v := by
  induction l with
  | nil => simp [getA, setA]
  | cons p t ih =>
    obtain ⟨k', w⟩ := p
    by_cases hk : k' = k
    · simp [getA, setA, hk]
    · simp [getA, setA, hk, ih]

theorem getA_setA_ne {κ α : Type} [DecidableEq κ] (l : List (κ × α))
    (k k' : κ) (v : α) (h : k ≠ k') : getA (setA l k v) k' = getA l k' := by
  induction l with
  | nil => simp [getA, setA, h]
  | cons p t ih =>
    obtain ⟨k'', w⟩ := p
    by_cases hk : k'' = k
    · subst hk
      simp [getA, setA, h]
    · simp [getA, setA, hk, ih]

theorem nth_map {α β : Type} (f : α → β) (l : List α) (i : Nat) :
    nth (l.map f) i = (nth l i).map f := by
  induction l generalizing i with
  | nil => simp [nth]
  | cons a t ih =>
    cases i with
    | zero => simp [nth]
    | succ n => simp [nth, ih]

theorem nth_some_lt {α : Type} {l : List α} {i : Nat} {a : α}
    (h : nth l i = some a) : i < l.length := by
  induction l generalizing i with
  | nil => simp [nth] at h
  | cons b t ih =>
    cases i with
    | zero => simp
    | succ n =>
      simp [nth] at h
      have := ih h
      simp
      omega

theorem nth_set_self {α : Type} {l : List α} {i : Nat} (a : α)
    (h : i < l.length) : nth (l.set i a) i = some a := by
  induction l generalizing i with
  | nil => simp at h
  | cons b t ih =>
    cases i with
    | zero => simp [nth]
    | succ n =>
      simp at h
      simp [nth, List.set]
      exact ih (by omega)

theorem nth_set_ne {α : Type} (l : List α) (i j : Nat) (a : α) (h : i ≠ j) :
    nth (l.set i a) j = nth l j := by
  induction l generalizing i j with
  | nil => simp
  | cons b t ih =>
    cases i with
    | zero =>
      cases j with
      | zero => exact absurd rfl h
      | succ m => simp [nth, List.set]
    | succ n =>
      cases j with
      | zero => simp [nth, List.set]
      | succ m =>
        simp [nth, List.set]
        exact ih n m (by omega)

theorem nth_mem {α : Type} {l : List α} {i : Nat} {a : α}
    (h : nth l i = some a) : a ∈ l := by
  induction l generalizing i with
  | nil => simp [nth] at h
  | cons b t ih =>
    cases i with
    | zero =>
      simp [nth] at h
      simp [h]
    | succ n =>
      simp [nth] at h
      simp [ih h]

theorem mem_set_elim {α : Type} {l : List α} {i : Nat} {a b : α}
    (h : a ∈ l.set i b) : a = b ∨ a ∈ l := by
  induction l generalizing i with
  | nil => simp at h
  | cons c t ih =>
    cases i with
    | zero =>
      simp [List.set] at h
      rcases h with h | h
      · exact Or.inl h
      · exact Or.inr (by simp [h])
    | succ n =>
      simp [List.set] at h
      rcases h with h | h
      · exact Or.inr (by simp [h])
      · rcases ih h with h' | h'
        · exact Or.inl h'
        · exact Or.inr (by simp [h'])

theorem iterN_fixed {α : Type} {f : α → α} {a : α} (h : f a = a) (n : Nat) :
    iterN n f a = a := by
  induction n with
  | zero => simp [iterN]
  | succ n ih => simp [iterN, ih, h]

theorem mapElL_eq (g : String → List (String × Vec3) → List (String × Vec3))
    (c : List Elem) : mapEl.mapElL g c = c.map (mapEl g) := by
  induction c with
  | nil => simp [mapEl.mapElL]
  | cons e es ih => simp [mapEl.mapElL, ih]

theorem mapEl_tag (g : String → List (String × Vec3) → List (String × Vec3))
    (e : Elem) : (mapEl g e).tag = e.tag := by
  cases e with
  | mk t sa v c => simp [mapEl, Elem.tag]

theorem mapEl_sattrs
    (g : String → List (String × Vec3) → List (String × Vec3)) (e : Elem) :
    (mapEl g e).sattrs = e.sattrs := by
  cases e with
  | mk t sa v c => simp [mapEl, Elem.sattrs]

theorem mapEl_vattrs
    (g : String → List (String × Vec3) → List (String × Vec3)) (e : Elem) :
    (mapEl g e).vattrs = g e.tag e.vattrs := by
  cases e with
  | mk t sa v c => simp [mapEl, Elem.vattrs, Elem.tag]

theorem mapEl_children
    (g : String → List (String × Vec3) → List (String × Vec3)) (e : Elem) :
    (mapEl g e).children = e.children.map (mapEl g) := by
  cases e with
  | mk t sa v c => simp [mapEl, Elem.children, mapElL_eq]

theorem applyLinkAtL_eq (s : Vec3) (d : Nat) (c : List Elem) :
    applyLinkAt.applyLinkAtL s d c = c.map (applyLinkAt s d) := by
  induction c with
  | nil => simp [applyLinkAt.applyLinkAtL]
  | cons e es ih => simp [applyLinkAt.applyLinkAtL, ih]

theorem applyLinkAt_tag (s : Vec3) (d : Nat) (e : Elem) :
    (applyLinkAt s d e).tag = e.tag := by
  cases e with
  | mk t sa v c => simp [applyLinkAt, Elem.tag]

theorem applyLinkAt_sattrs (s : Vec3) (d : Nat) (e : Elem) :
    (applyLinkAt s d e).sattrs = e.sattrs := by
  cases e with
  | mk t sa v c => simp [applyLinkAt, Elem.sattrs]

theorem applyLinkAt_vattrs (s : Vec3) (d : Nat) (e : Elem) :
    (applyLinkAt s d e).vattrs = iterN (d + 1) (gLink s e.tag) e.vattrs := by
  cases e with
  | mk t sa v c => simp [applyLinkAt, Elem.vattrs, Elem.tag]

theorem applyLinkAt_children (s : Vec3) (d : Nat) (e : Elem) :
    (applyLinkAt s d e).children = e.children.map (applyLinkAt s (d + 1)) := by
  cases e with
  | mk t sa v c => simp [applyLinkAt, Elem.children, applyLinkAtL_eq]

theorem gMesh_getA_ne (s : Vec3) (t : String) (v : List (String × Vec3))
    (k : String) (hk : k ≠ "scale") : getA (gMesh s t v) k = getA v k := by
  unfold gMesh
  split
  · rcases hg : getA v "scale" with _ | c <;>
      simp [getA_setA_ne _ _ _ _ (fun h => hk h.symm)]
  · rfl

theorem gOrigin_getA_ne (s : Vec3) (t : String) (v : List (String × Vec3))
    (k : String) (hk : k ≠ "xyz") : getA (gOrigin s t v) k = getA v k := by
  unfold gOrigin
  split
  · rcases hg : getA v "xyz" with _ | c <;>
      simp [getA_setA_ne _ _ _ _ (fun h => hk h.symm)]
  · rfl

theorem gAxis_getA_ne (s : Vec3) (t : String) (v : List (String × Vec3))
    (k : String) (hk : k ≠ "xyz") : getA (gAxis s t v) k = getA v k := by
  unfold gAxis
  split
  · rcases hg : getA v "xyz" with _ | c <;>
      simp [getA_setA_ne _ _ _ _ (fun h => hk h.symm)]
  · rfl

theorem gLink_getA_rpy (s : Vec3) (t : String) (v : List (String × Vec3)) :
    getA (gLink s t v) "rpy" = getA v "rpy" := by
  unfold gLink
  rw [gOrigin_getA_ne _ _ _ _ (by simp), gMesh_getA_ne _ _ _ _ (by simp)]

theorem iterN_gLink_rpy (s : Vec3) (t : String) (v : List (String × Vec3))
    (n : Nat) : getA (iterN n (gLink s t) v) "rpy" = getA v "rpy" := by
  induction n with
  | zero => simp [iterN]
  | succ n ih => rw [iterN, gLink_getA_rpy, ih]

theorem getV_mapEl_gOrigin_rpy (s : Vec3) (e : Elem) :
    getV (mapEl (gOrigin s) e) "rpy" = getV e "rpy" := by
  simp only [getV, mapEl_vattrs]
  exact gOrigin_getA_ne s e.tag e.vattrs "rpy" (by decide)

theorem getV_mapEl_gAxis_rpy (s : Vec3) (e : Elem) :
    getV (mapEl (gAxis s) e) "rpy" = getV e "rpy" := by
  simp only [getV, mapEl_vattrs]
  exact gAxis_getA_ne s e.tag e.vattrs "rpy" (by decide)

theorem getV_applyLinkAt_rpy (s : Vec3) (d : Nat) (e : Elem) :
    getV (applyLinkAt s d e) "rpy" = getV e "rpy" := by
  simp [getV, applyLinkAt_vattrs, iterN_gLink_rpy]

theorem gMesh_ne_tag (s : Vec3) (t : String) (v : List (String × Vec3))
    (h : t ≠ "mesh") : gMesh s t v = v := by
  simp [gMesh, h]

theorem gOrigin_ne_tag (s : Vec3) (t : String) (v : List (String × Vec3))
    (h : t ≠ "origin") : gOrigin s t v = v := by
  simp [gOrigin, h]

theorem gAxis_ne_tag (s : Vec3) (t : String) (v : List (String × Vec3))
    (h : t ≠ "axis") : gAxis s t v = v := by
  simp [gAxis, h]

theorem gLink_axis_tag (s : Vec3) (v : List (String × Vec3)) :
    gLink s "axis" v = v := by
  rw [gLink, gMesh_ne_tag s "axis" v (by decide),
    gOrigin_ne_tag s "axis" v (by decide)]

theorem find?_map_of {α β : Type} (f : α → β) (p : β → Bool) (q : α → Bool)
    (h : ∀ x, p (f x) = q x) (l : List α) :
    (l.map f).find? p = (l.find? q).map f := by
  induction l with
  | nil => simp
  | cons a t ih =>
    by_cases hq : q a
    · simp [List.find?, h, hq]
    · simp only [List.map_cons, List.find?, h a, hq]
      exact ih

theorem findSub_mapEl
    (g : String → List (String × Vec3) → List (String × Vec3)) (e : Elem)
    (tg : String) : findSub (mapEl g e) tg = (findSub e tg).map (mapEl g) := by
  unfold findSub
  rw [mapEl_children]
  exact find?_map_of _ _ _ (fun x => by rw [mapEl_tag]) _

theorem jointChildLink_mapEl
    (g : String → List (String × Vec3) → List (String × Vec3)) (e : Elem) :
    jointChildLink (mapEl g e) = jointChildLink e := by
  unfold jointChildLink
  rw [findSub_mapEl]
  rcases findSub e "child" with _ | c
  · rfl
  · simp [getS, mapEl_sattrs]


theorem norm3_pos {v : Vec3} (h : v.nonzero) : 0 < norm3 v := by
  unfold norm3
  apply Real.sqrt_pos.mpr
  have hx := sq_nonneg v.x
  have hy := sq_nonneg v.y
  have hz := sq_nonneg v.z
  rcases h with h | h | h
  · have : 0 < v.x ^ 2 := by positivity
    nlinarith
  · have : 0 < v.y ^ 2 := by positivity
    nlinarith
  · have : 0 < v.z ^ 2 := by positivity
    nlinarith

theorem nonzero_of_norm3_one {v : Vec3} (h : norm3 v = 1) : v.nonzero := by
  by_contra hc
  unfold Vec3.nonzero at hc
  push_neg at hc
  obtain ⟨h1, h2, h3⟩ := hc
  unfold norm3 at h
  rw [h1, h2, h3] at h
  norm_num at h

theorem vmul_nonzero {c s : Vec3} (hc : c.nonzero)
    (hs : s.x ≠ 0 ∧ s.y ≠ 0 ∧ s.z ≠ 0) : (vmul c s).nonzero := by
  obtain ⟨hsx, hsy, hsz⟩ := hs
  rcases hc with h | h | h
  · exact Or.inl (by simp [vmul, h, hsx])
  · exact Or.inr (Or.inl (by simp [vmul, h, hsy]))
  · exact Or.inr (Or.inr (by simp [vmul, h, hsz]))

theorem norm3_unit {w : Vec3} (h : w.nonzero) :
    norm3 (vdivS w (norm3 w)) = 1 := by
  have hpos := norm3_pos h
  have hS : 0 < w.x ^ 2 + w.y ^ 2 + w.z ^ 2 := by
    have := Real.sqrt_pos.mp hpos
    exact this
  unfold norm3 vdivS at *
  rw [div_pow, div_pow, div_pow, div_add_div_same, div_add_div_same,
    Real.sq_sqrt hS.le, div_self (ne_of_gt hS), Real.sqrt_one]


theorem axisNewVal_unit {s c : Vec3} (hs : s.x ≠ 0 ∧ s.y ≠ 0 ∧ s.z ≠ 0)
    (hc : c.nonzero) : norm3 (axisNewVal s c) = 1 :=
  norm3_unit (vmul_nonzero hc hs)

theorem axisXyzsL_congr {f : Elem → Elem} {c : List Elem}
    (h : ∀ x ∈ c, axisXyzs (f x) = axisXyzs x) :
    axisXyzs.axisXyzsL (c.map f) = axisXyzs.axisXyzsL c := by
  induction c with
  | nil => simp [axisXyzs.axisXyzsL]
  | cons e es ih =>
    simp only [List.map_cons, axisXyzs.axisXyzsL]
    rw [h e (by simp), ih (fun x hx => h x (by simp [hx]))]

theorem axisXyzsL_map {f : Elem → Elem} {F : Option Vec3 → Option Vec3}
    {c : List Elem} (h : ∀ x ∈ c, axisXyzs (f x) = (axisXyzs x).map F) :
    axisXyzs.axisXyzsL (c.map f) = (axisXyzs.axisXyzsL c).map F := by
  induction c with
  | nil => simp [axisXyzs.axisXyzsL]
  | cons e es ih =>
    simp only [List.map_cons, axisXyzs.axisXyzsL, List.map_append]
    rw [h e (by simp), ih (fun x hx => h x (by simp [hx]))]

theorem axisXyzs_mapEl_keeps
    {g : String → List (String × Vec3) → List (String × Vec3)}
    (hg : ∀ v, getA (g "axis" v) "xyz" = getA v "xyz") (e : Elem) :
    axisXyzs (mapEl g e) = axisXyzs e := by
  induction e using Elem.inductionOn with
  | h t sa v c ih =>
    simp only [mapEl, axisXyzs, mapElL_eq]
    rw [axisXyzsL_congr ih]
    by_cases ht : t = "axis"
    · subst ht
      simp [hg]
    · simp [ht]

theorem axisXyzs_mapEl_gAxis (s : Vec3) (e : Elem) :
    axisXyzs (mapEl (gAxis s) e) =
      (axisXyzs e).map (Option.map (axisNewVal s)) := by
  induction e using Elem.inductionOn with
  | h t sa v c ih =>
    simp only [mapEl, axisXyzs, mapElL_eq, List.map_append]
    rw [axisXyzsL_map ih]
    by_cases ht : t = "axis"
    · subst ht
      simp only [if_pos rfl, List.map_cons, List.map_nil]
      congr 1
      unfold gAxis
      rw [if_pos rfl]
      rcases hv : getA v "xyz" with _ | cv
      · simp [hv]
      · simp [getA_setA_self, axisNewVal]
    · simp [ht]

theorem axisXyzs_applyLinkAt (s : Vec3) (e : Elem) :
    ∀ d, axisXyzs (applyLinkAt s d e) = axisXyzs e := by
  induction e using Elem.inductionOn with
  | h t sa v c ih =>
    intro d
    simp only [applyLinkAt, axisXyzs, applyLinkAtL_eq]
    rw [axisXyzsL_congr (fun x hx => ih x hx (d + 1))]
    by_cases ht : t = "axis"
    · subst ht
      rw [iterN_fixed (gLink_axis_tag s v)]
    · simp [ht]

theorem axisXyzsL_set {c : List Elem} {i : Nat} {e' ci : Elem}
    (hci : nth c i = some ci) (he : axisXyzs e' = axisXyzs ci) :
    axisXyzs.axisXyzsL (c.set i e') = axisXyzs.axisXyzsL c := by
  induction c generalizing i with
  | nil => simp [nth] at hci
  | cons a t ih =>
    cases i with
    | zero =>
      simp [nth] at hci
      subst hci
      simp [List.set, axisXyzs.axisXyzsL, he]
    | succ n =>
      simp [nth] at hci
      simp [List.set, axisXyzs.axisXyzsL, ih hci]

theorem axisXyzs_setChild {t : Elem} {i : Nat} {e' ci : Elem}
    (hci : nth t.children i = some ci) (he : axisXyzs e' = axisXyzs ci) :
    axisXyzs (setChild t i e') = axisXyzs t := by
  cases t with
  | mk tg sa v c =>
    simp only [setChild, Elem.tag, Elem.sattrs, Elem.vattrs, Elem.children,
      axisXyzs] at *
    rw [axisXyzsL_set hci he]



theorem foldAxis_nil (o : Option Vec3) : foldAxis [] o = o := rfl

theorem foldAxis_cons (s : Vec3) (rest : List Vec3) (o : Option Vec3) :
    foldAxis (s :: rest) o = foldAxis rest (o.map (axisNewVal s)) := rfl

theorem foldAxisV_nil (c : Vec3) : foldAxisV [] c = c := rfl

theorem foldAxisV_cons (s : Vec3) (rest : List Vec3) (c : Vec3) :
    foldAxisV (s :: rest) c = foldAxisV rest (axisNewVal s c) := rfl

theorem foldAxis_none (suf : List Vec3) : foldAxis suf none = none := by
  induction suf with
  | nil => rfl
  | cons s rest ih => rw [foldAxis_cons, Option.map_none']; exact ih

theorem foldAxis_some (suf : List Vec3) (c : Vec3) :
    foldAxis suf (some c) = some (foldAxisV suf c) := by
  induction suf generalizing c with
  | nil => rfl
  | cons s rest ih =>
    rw [foldAxis_cons, Option.map_some', foldAxisV_cons]
    exact ih _

theorem foldAxisV_unit {suf : List Vec3} {c : Vec3} (hne : suf ≠ [])
    (hs : ∀ s ∈ suf, s.x ≠ 0 ∧ s.y ≠ 0 ∧ s.z ≠ 0) (hc : c.nonzero) :
    norm3 (foldAxisV suf c) = 1 := by
  induction suf generalizing c with
  | nil => exact absurd rfl hne
  | cons s rest ih =>
    have h1 : norm3 (axisNewVal s c) = 1 :=
      axisNewVal_unit (hs s (by simp)) hc
    rw [foldAxisV_cons]
    rcases rest with _ | ⟨r2, rest2⟩
    · exact h1
    · exact ih (by simp) (fun w hw => hs w (by simp [hw]))
        (nonzero_of_norm3_one h1)

theorem foldAxis_append (l1 l2 : List Vec3) (o : Option Vec3) :
    foldAxis (l1 ++ l2) o = foldAxis l2 (foldAxis l1 o) := by
  simp [foldAxis, List.foldl_append]

theorem setChild_children (t : Elem) (i : Nat) (c : Elem) :
    (setChild t i c).children = t.children.set i c := by
  cases t
  rfl

theorem jfScale_mapEl_gOrigin (s s' : Vec3) (j : Elem) :
    jfScale s (mapEl (gOrigin s') j) = jfScale s j := by
  unfold jfScale
  rw [getV_mapEl_gOrigin_rpy]

theorem jointStep_ok_elim {i0 i : Nat} {t : Elem} {s : Vec3} {t2 : Elem}
    {s1 : Vec3} {nm1 : String}
    (h : jointStep i0 i t s = .ok (t2, s1, nm1)) :
    ∃ j, nth t.children i = some j ∧
      s1 = jfScale s (mapEl (gOrigin s) j) ∧
      t2 = mapEl (gAxis s1) (setChild t i (mapEl (gOrigin s) j)) ∧
      ∃ j0, nth t2.children i0 = some j0 ∧ jointChildLink j0 = some nm1 := by
  unfold jointStep at h
  rcases hj : nth t.children i with _ | j
  · rw [hj] at h
    cases h
  · rw [hj] at h
    simp only [] at h
    rcases hj0 : nth (mapEl (gAxis (jfScale s (mapEl (gOrigin s) j)))
        (setChild t i (mapEl (gOrigin s) j))).children i0 with _ | j0
    · rw [hj0] at h
      cases h
    · rw [hj0] at h
      simp only [] at h
      rcases hcl : jointChildLink j0 with _ | nm
      · rw [hcl] at h
        cases h
      · rw [hcl] at h
        simp only [Except.ok.injEq, Prod.mk.injEq] at h
        obtain ⟨ht2, hs1, hnm⟩ := h
        subst ht2
        subst hs1
        subst hnm
        exact ⟨j, rfl, rfl, rfl, j0, hj0, hcl⟩

theorem jointStep_axis {i0 i : Nat} {t : Elem} {s : Vec3} {t2 : Elem}
    {s1 : Vec3} {nm1 : String}
    (h : jointStep i0 i t s = .ok (t2, s1, nm1)) :
    axisXyzs t2 = (axisXyzs t).map (Option.map (axisNewVal s1)) := by
  obtain ⟨j, hj, hs1, ht2, -⟩ := jointStep_ok_elim h
  subst ht2
  rw [axisXyzs_mapEl_gAxis]
  congr 1
  exact axisXyzs_setChild hj
    (axisXyzs_mapEl_keeps
      (fun v => by rw [gOrigin_ne_tag s "axis" v (by decide)]) j)

theorem jointStep_rpy {i0 i : Nat} {t : Elem} {s : Vec3} {t2 : Elem}
    {s1 : Vec3} {nm1 : String}
    (h : jointStep i0 i t s = .ok (t2, s1, nm1)) (k : Nat) :
    (nth t2.children k).bind (fun j => getV j "rpy") =
      (nth t.children k).bind (fun j => getV j "rpy") := by
  obtain ⟨j, hj, hs1, ht2, -⟩ := jointStep_ok_elim h
  subst ht2
  rw [mapEl_children, nth_map, setChild_children]
  by_cases hk : k = i
  · subst hk
    rw [nth_set_self _ (nth_some_lt hj), hj]
    simp only [Option.map_some', Option.some_bind]
    rw [getV_mapEl_gAxis_rpy, getV_mapEl_gOrigin_rpy]
  · rw [nth_set_ne _ _ _ _ (fun hh => hk hh.symm)]
    rcases hnk : nth t.children k with _ | ck
    · simp
    · simp only [Option.map_some', Option.some_bind]
      rw [getV_mapEl_gAxis_rpy]

theorem jointStep_childLink {i0 i : Nat} {t : Elem} {s : Vec3} {t2 : Elem}
    {s1 : Vec3} {nm1 : String}
    (h : jointStep i0 i t s = .ok (t2, s1, nm1)) (k : Nat) :
    (nth t2.children k).map jointChildLink =
      (nth t.children k).map jointChildLink := by
  obtain ⟨j, hj, hs1, ht2, -⟩ := jointStep_ok_elim h
  subst ht2
  rw [mapEl_children, nth_map, setChild_children]
  by_cases hk : k = i
  · subst hk
    rw [nth_set_self _ (nth_some_lt hj), hj]
    simp only [Option.map_some']
    rw [jointChildLink_mapEl, jointChildLink_mapEl]
  · rw [nth_set_ne _ _ _ _ (fun hh => hk hh.symm)]
    rcases hnk : nth t.children k with _ | ck
    · simp
    · simp only [Option.map_some']
      rw [jointChildLink_mapEl]

theorem jointStep_scale {i0 i : Nat} {t : Elem} {s : Vec3} {t2 : Elem}
    {s1 : Vec3} {nm1 : String}
    (h : jointStep i0 i t s = .ok (t2, s1, nm1)) : s1 = rotStep t s i := by
  obtain ⟨j, hj, hs1, -, -⟩ := jointStep_ok_elim h
  rw [hs1, jfScale_mapEl_gOrigin]
  unfold rotStep jfScale
  rw [hj]
  simp only [Option.some_bind]

theorem rotStep_ext {t t' : Elem}
    (h : ∀ k, (nth t'.children k).bind (fun j => getV j "rpy") =
      (nth t.children k).bind (fun j => getV j "rpy")) :
    rotStep t' = rotStep t := by
  funext s i
  unfold rotStep
  rw [h i]

theorem jointStep_rpyNone {i0 i : Nat} {t : Elem} {s : Vec3} {t2 : Elem}
    {s1 : Vec3} {nm1 : String}
    (h : jointStep i0 i t s = .ok (t2, s1, nm1))
    (hn : ∀ c ∈ t.children, getV c "rpy" = none) :
    s1 = s ∧ ∀ c ∈ t2.children, getV c "rpy" = none := by
  obtain ⟨j, hj, hs1, ht2, -⟩ := jointStep_ok_elim h
  constructor
  · rw [hs1, jfScale_mapEl_gOrigin]
    unfold jfScale
    rw [hn j (nth_mem hj)]
  · subst ht2
    intro c hc
    rw [mapEl_children, setChild_children] at hc
    obtain ⟨pre, hpre, rfl⟩ := List.mem_map.mp hc
    rw [getV_mapEl_gAxis_rpy]
    rcases mem_set_elim hpre with h' | h'
    · subst h'
      rw [getV_mapEl_gOrigin_rpy]
      exact hn j (nth_mem hj)
    · exact hn pre h'

theorem jointFold_axis {i0 : Nat} :
    ∀ {idxs : List Nat} {t : Elem} {s : Vec3} {ax : List Vec3}
      {nm : Option String} {t' : Elem} {s' : Vec3} {ax' : List Vec3}
      {nm' : Option String},
      jointFold i0 t s ax nm idxs = .ok (t', s', ax', nm') →
      ∃ suf, ax' = ax ++ suf ∧
        axisXyzs t' = (axisXyzs t).map (foldAxis suf) := by
  intro idxs
  induction idxs with
  | nil =>
    intro t s ax nm t' s' ax' nm' h
    simp only [jointFold, Except.ok.injEq, Prod.mk.injEq] at h
    obtain ⟨h1, h2, h3, h4⟩ := h
    refine ⟨[], by simp [h3], ?_⟩
    rw [← h1]
    have hid : foldAxis [] = id := funext fun o => rfl
    rw [hid, List.map_id]
  | cons i rest ih =>
    intro t s ax nm t' s' ax' nm' h
    simp only [jointFold] at h
    rcases hstep : jointStep i0 i t s with e | ⟨t2, s1, nm1⟩
    · rw [hstep] at h
      cases h
    · rw [hstep] at h
      simp only [] at h
      obtain ⟨suf', h1, h2⟩ := ih h
      refine ⟨s1 :: suf', by simp [h1], ?_⟩
      rw [h2, jointStep_axis hstep, List.map_map]
      have hfn : foldAxis suf' ∘ Option.map (axisNewVal s1) =
          foldAxis (s1 :: suf') :=
        funext fun o => (foldAxis_cons s1 suf' o).symm
      rw [hfn]

theorem jointFold_rpyNone {i0 : Nat} :
    ∀ {idxs : List Nat} {t : Elem} {s : Vec3} {ax : List Vec3}
      {nm : Option String} {t' : Elem} {s' : Vec3} {ax' : List Vec3}
      {nm' : Option String},
      jointFold i0 t s ax nm idxs = .ok (t', s', ax', nm') →
      (∀ c ∈ t.children, getV c "rpy" = none) →
      s' = s ∧ ∀ c ∈ t'.children, getV c "rpy" = none := by
  intro idxs
  induction idxs with
  | nil =>
    intro t s ax nm t' s' ax' nm' h hn
    simp only [jointFold, Except.ok.injEq, Prod.mk.injEq] at h
    obtain ⟨h1, h2, h3, h4⟩ := h
    exact ⟨h2.symm, h1 ▸ hn⟩
  | cons i rest ih =>
    intro t s ax nm t' s' ax' nm' h hn
    simp only [jointFold] at h
    rcases hstep : jointStep i0 i t s with e | ⟨t2, s1, nm1⟩
    · rw [hstep] at h
      cases h
    · rw [hstep] at h
      simp only [] at h
      obtain ⟨hs1, hn2⟩ := jointStep_rpyNone hstep hn
      subst hs1
      exact ih h hn2

theorem jointFold_scale_name {i0 : Nat} :
    ∀ {idxs : List Nat} {t : Elem} {s : Vec3} {ax : List Vec3}
      {nm : Option String} {t' : Elem} {s' : Vec3} {ax' : List Vec3}
      {nm' : Option String},
      jointFold i0 t s ax nm idxs = .ok (t', s', ax', nm') →
      idxs ≠ [] →
      s' = idxs.foldl (rotStep t) s ∧
        ∃ j0, nth t.children i0 = some j0 ∧ nm' = jointChildLink j0 := by
  intro idxs
  induction idxs with
  | nil =>
    intro t s ax nm t' s' ax' nm' h hne
    exact absurd rfl hne
  | cons i rest ih =>
    intro t s ax nm t' s' ax' nm' h hne
    simp only [jointFold] at h
    rcases hstep : jointStep i0 i t s with e | ⟨t2, s1, nm1⟩
    · rw [hstep] at h
      cases h
    · rw [hstep] at h
      simp only [] at h
      have hs1 : s1 = rotStep t s i := jointStep_scale hstep
      have hrel : rotStep t2 = rotStep t :=
        rotStep_ext (jointStep_rpy hstep)
      rcases rest with _ | ⟨i2, rest2⟩
      · simp only [jointFold, Except.ok.injEq, Prod.mk.injEq] at h
        obtain ⟨h1, h2, h3, h4⟩ := h
        constructor
        · rw [← h2, hs1]
          simp [List.foldl]
        · obtain ⟨j, hj, hsx, ht2, j0, hj0, hcl⟩ := jointStep_ok_elim hstep
          have hmap := jointStep_childLink hstep i0
          rw [hj0] at hmap
          rcases hor : nth t.children i0 with _ | j0o
          · rw [hor] at hmap
            simp at hmap
          · rw [hor] at hmap
            simp only [Option.map_some', Option.some.injEq] at hmap
            exact ⟨j0o, rfl, by rw [← h4, ← hmap, hcl]⟩
      · obtain ⟨hsf, j0₂, hj0₂, hnm₂⟩ := ih h (by simp)
        constructor
        · rw [hsf, hrel, hs1]
          simp [List.foldl]
        · have hmap := jointStep_childLink hstep i0
          rw [hj0₂] at hmap
          rcases hor : nth t.children i0 with _ | j0o
          · rw [hor] at hmap
            simp at hmap
          · rw [hor] at hmap
            simp only [Option.map_some', Option.some.injEq] at hmap
            exact ⟨j0o, rfl, by rw [hnm₂, hmap]⟩

theorem rescaleLoop_axis :
    ∀ (fuel : Nat) {t : Elem} {s : Vec3} {nm : Option String}
      {ls ax : List Vec3} {out : ROut},
      rescaleLoop fuel t s nm ls ax = .ok out →
      ∃ suf, out.axisScales = ax ++ suf ∧
        axisXyzs out.tree = (axisXyzs t).map (foldAxis suf) := by
  have hnone : ∀ (fuel : Nat) {t : Elem} {s : Vec3} {ls ax : List Vec3}
      {out : ROut}, rescaleLoop fuel t s none ls ax = .ok out →
      ∃ suf, out.axisScales = ax ++ suf ∧
        axisXyzs out.tree = (axisXyzs t).map (foldAxis suf) := by
    intro fuel t s ls ax out h
    have hid : foldAxis [] = id := funext fun o => rfl
    cases fuel with
    | zero =>
      simp only [rescaleLoop, Except.ok.injEq] at h
      refine ⟨[], ?_, ?_⟩ <;> rw [← h] <;> simp [hid]
    | succ fuel =>
      simp only [rescaleLoop, Except.ok.injEq] at h
      refine ⟨[], ?_, ?_⟩ <;> rw [← h] <;> simp [hid]
  intro fuel
  induction fuel with
  | zero =>
    intro t s nm ls ax out h
    rcases nm with _ | n
    · exact hnone 0 h
    · simp only [rescaleLoop] at h
      cases h
  | succ fuel ih =>
    intro t s nm ls ax out h
    rcases nm with _ | n
    · exact hnone (fuel + 1) h
    · simp only [rescaleLoop] at h
      rcases hfi : findLinkIdx t n with _ | i
      · rw [hfi] at h
        cases h
      · rw [hfi] at h
        simp only [] at h
        rcases hli : nth t.children i with _ | li
        · rw [hli] at h
          cases h
        · rw [hli] at h
          simp only [] at h
          have hpres : axisXyzs (setChild t i (applyLinkAt s 0 li)) =
              axisXyzs t :=
            axisXyzs_setChild hli (axisXyzs_applyLinkAt s li 0)
          rcases hji : jointIdxs (setChild t i (applyLinkAt s 0 li)) n with
            _ | ⟨i0, rest⟩
          · rw [hji] at h
            simp only [Except.ok.injEq] at h
            have hid : foldAxis [] = id := funext fun o => rfl
            refine ⟨[], ?_, ?_⟩ <;> rw [← h] <;> simp [hid, hpres]
          · rw [hji] at h
            simp only [] at h
            rcases hjf : jointFold i0 (setChild t i (applyLinkAt s 0 li)) s ax
                none (i0 :: rest) with e | ⟨t2, s2, ax2, nm2⟩
            · rw [hjf] at h
              cases h
            · rw [hjf] at h
              simp only [] at h
              obtain ⟨suf1, ha1, hx1⟩ := jointFold_axis hjf
              obtain ⟨suf2, ha2, hx2⟩ := ih h
              refine ⟨suf1 ++ suf2, ?_, ?_⟩
              · rw [ha2, ha1, List.append_assoc]
              · rw [hx2, hx1, hpres, List.map_map]
                have hfn : foldAxis suf2 ∘ foldAxis suf1 =
                    foldAxis (suf1 ++ suf2) :=
                  funext fun o => (foldAxis_append suf1 suf2 o).symm
                rw [hfn]

theorem rescaleLoop_rpyNone :
    ∀ (fuel : Nat) {t : Elem} {s : Vec3} {nm : Option String}
      {ls ax : List Vec3} {out : ROut},
      rescaleLoop fuel t s nm ls ax = .ok out →
      (∀ c ∈ t.children, getV c "rpy" = none) →
      ∀ w ∈ out.linkScales, w ∈ ls ∨ w = s := by
  have hnone : ∀ (fuel : Nat) {t : Elem} {s : Vec3} {ls ax : List Vec3}
      {out : ROut}, rescaleLoop fuel t s none ls ax = .ok out →
      ∀ w ∈ out.linkScales, w ∈ ls ∨ w = s := by
    intro fuel t s ls ax out h w hw
    cases fuel with
    | zero =>
      simp only [rescaleLoop, Except.ok.injEq] at h
      rw [← h] at hw
      exact Or.inl hw
    | succ fuel =>
      simp only [rescaleLoop, Except.ok.injEq] at h
      rw [← h] at hw
      exact Or.inl hw
  intro fuel
  induction fuel with
  | zero =>
    intro t s nm ls ax out h hn
    rcases nm with _ | n
    · exact hnone 0 h
    · simp only [rescaleLoop] at h
      cases h
  | succ fuel ih =>
    intro t s nm ls ax out h hn
    rcases nm with _ | n
    · exact hnone (fuel + 1) h
    · simp only [rescaleLoop] at h
      rcases hfi : findLinkIdx t n with _ | i
      · rw [hfi] at h
        cases h
      · rw [hfi] at h
        simp only [] at h
        rcases hli : nth t.children i with _ | li
        · rw [hli] at h
          cases h
        · rw [hli] at h
          simp only [] at h
          have hn1 : ∀ c ∈ (setChild t i (applyLinkAt s 0 li)).children,
              getV c "rpy" = none := by
            intro c hc
            rw [setChild_children] at hc
            rcases mem_set_elim hc with h' | h'
            · subst h'
              rw [getV_applyLinkAt_rpy]
              exact hn li (nth_mem hli)
            · exact hn c h'
          rcases hji : jointIdxs (setChild t i (applyLinkAt s 0 li)) n with
            _ | ⟨i0, rest⟩
          · rw [hji] at h
            simp only [Except.ok.injEq] at h
            intro w hw
            rw [← h] at hw
            simp only [] at hw
            rcases List.mem_append.mp hw with h'' | h''
            · exact Or.inl h''
            · exact Or.inr (by simpa using h'')
          · rw [hji] at h
            simp only [] at h
            rcases hjf : jointFold i0 (setChild t i (applyLinkAt s 0 li)) s ax
                none (i0 :: rest) with e | ⟨t2, s2, ax2, nm2⟩
            · rw [hjf] at h
              cases h
            · rw [hjf] at h
              simp only [] at h
              obtain ⟨hs2, hn2⟩ := jointFold_rpyNone hjf hn1
              subst hs2
              intro w hw
              rcases ih h hn2 w hw with h' | h'
              · rcases List.mem_append.mp h' with h'' | h''
                · exact Or.inl h''
                · exact Or.inr (by simpa using h'')
              · exact Or.inr h'



/-- C7: after rescaling completes, every joint motion axis in the tree has
magnitude exactly 1: each axis pass multiplies every `axis` element's `xyz`
elementwise by the current scale and renormalizes, and the axis passes are
the only operations that touch `axis` elements, so the last pass leaves every
axis at unit magnitude.  The hypotheses are the non-degeneracy conditions: at
least one axis pass ran (the traversal processed at least one joint), each
scale used in an axis pass has no zero component, and no axis of the input
tree is the zero vector (the case the specification assigns to
`DegenerateAxisError`).  In the real-number model the magnitude is exactly 1;
the float code attains it within rounding tolerance. -/
theorem c7_axes_unit {t : Elem} {bb ob : Vec3} {out : ROut}
    (hok : rescaleTree t bb ob = .ok out)
    (hne : out.axisScales ≠ [])
    (hs : ∀ s ∈ out.axisScales, s.x ≠ 0 ∧ s.y ≠ 0 ∧ s.z ≠ 0)
    (hax : ∀ o ∈ axisXyzs t, ∀ c, o = some c → c.nonzero) :
    ∀ o ∈ axisXyzs out.tree, ∀ v, o = some v → norm3 v = 1 := by
  unfold rescaleTree at hok
  obtain ⟨suf, hsuf, hchar⟩ := rescaleLoop_axis _ hok
  rw [List.nil_append] at hsuf
  intro o ho v hv
  subst hv
  rw [hchar] at ho
  obtain ⟨o0, ho0, heq⟩ := List.mem_map.mp ho
  rcases o0 with _ | c
  · rw [foldAxis_none] at heq
    cases heq
  · rw [foldAxis_some] at heq
    obtain rfl : foldAxisV suf c = v := Option.some.inj heq
    exact foldAxisV_unit (by rw [← hsuf]; exact hne)
      (fun w hw => hs w (by rw [hsuf]; exact hw)) (hax _ ho0 c rfl)

/-- Witness for C7 at a concrete input: the chain `TW7` with target box
`(2,1,1)` and original box `(1,1,1)` satisfies all the hypotheses, and every
axis of the rescaled tree has magnitude 1. -/
theorem c7_witness :
    ∃ out, rescaleTree TW7 ⟨2, 1, 1⟩ ⟨1, 1, 1⟩ = .ok out ∧
      ∀ o ∈ axisXyzs out.tree, ∀ v, o = some v → norm3 v = 1 := by
  cases hE : rescaleTree TW7 ⟨2, 1, 1⟩ ⟨1, 1, 1⟩ with
  | error e =>
    simp [rescaleTree, rescaleLoop, jointFold, jointStep, jfScale, TW7,
      findLinkIdx, jointIdxs, jointIdxs.go, setChild, applyLinkAt,
      applyLinkAt.applyLinkAtL, mapEl, mapEl.mapElL, gMesh, gOrigin, gAxis,
      gLink, iterN, getA, setA, getS, getV, Elem.tag, Elem.children,
      Elem.sattrs, Elem.vattrs, nth, findSub, jointParentLink,
      jointChildLink, vmul, vdiv, vabs, vdivS] at hE
  | ok out =>
    refine ⟨out, rfl, c7_axes_unit hE ?_ ?_ ?_⟩
    · simp [rescaleTree, rescaleLoop, jointFold, jointStep, jfScale, TW7,
        findLinkIdx, jointIdxs, jointIdxs.go, setChild, applyLinkAt,
        applyLinkAt.applyLinkAtL, mapEl, mapEl.mapElL, gMesh, gOrigin, gAxis,
        gLink, iterN, getA, setA, getS, getV, Elem.tag, Elem.children,
        Elem.sattrs, Elem.vattrs, nth, findSub, jointParentLink,
        jointChildLink, vmul, vdiv, vabs, vdivS] at hE
      rw [← hE]
      simp
    · simp [rescaleTree, rescaleLoop, jointFold, jointStep, jfScale, TW7,
        findLinkIdx, jointIdxs, jointIdxs.go, setChild, applyLinkAt,
        applyLinkAt.applyLinkAtL, mapEl, mapEl.mapElL, gMesh, gOrigin, gAxis,
        gLink, iterN, getA, setA, getS, getV, Elem.tag, Elem.children,
        Elem.sattrs, Elem.vattrs, nth, findSub, jointParentLink,
        jointChildLink, vmul, vdiv, vabs, vdivS] at hE
      rw [← hE]
      norm_num
    · intro o ho c hc
      subst hc
      simp [TW7, axisXyzs, axisXyzs.axisXyzsL, getA, Elem.vattrs] at ho
      obtain rfl : Vec3.mk 1 0 0 = c := Option.some.inj (by rw [ho])
      exact Or.inl (by norm_num)

/-- C8: on a tree in which no joint declares an `rpy` rotation, the scale
vector recorded at every link visit of the propagation equals the root-level
base scale `bounding_box / original_bbox` unchanged: the scale is only ever
reassigned under the `rpy` branch. -/
theorem c8_scale_constant {t : Elem} {bb ob : Vec3} {out : ROut}
    (hok : rescaleTree t bb ob = .ok out)
    (hn : ∀ c ∈ t.children, getV c "rpy" = none) :
    ∀ w ∈ out.linkScales, w = vdiv bb ob := by
  unfold rescaleTree at hok
  intro w hw
  rcases rescaleLoop_rpyNone _ hok hn w hw with h' | h'
  · simp at h'
  · exact h'

/-- Witness for C8 at a concrete input: the rotation-free chain `TW7` with
target box `(2,1,4)`: every recorded link scale equals the base scale. -/
theorem c8_witness :
    ∃ out, rescaleTree TW7 ⟨2, 1, 4⟩ ⟨1, 1, 1⟩ = .ok out ∧
      ∀ w ∈ out.linkScales, w = vdiv ⟨2, 1, 4⟩ ⟨1, 1, 1⟩ := by
  cases hE : rescaleTree TW7 ⟨2, 1, 4⟩ ⟨1, 1, 1⟩ with
  | error e =>
    simp [rescaleTree, rescaleLoop, jointFold, jointStep, jfScale, TW7,
      findLinkIdx, jointIdxs, jointIdxs.go, setChild, applyLinkAt,
      applyLinkAt.applyLinkAtL, mapEl, mapEl.mapElL, gMesh, gOrigin, gAxis,
      gLink, iterN, getA, setA, getS, getV, Elem.tag, Elem.children,
      Elem.sattrs, Elem.vattrs, nth, findSub, jointParentLink,
      jointChildLink, vmul, vdiv, vabs, vdivS] at hE
  | ok out =>
    refine ⟨out, rfl, c8_scale_constant hE ?_⟩
    intro c hc
    simp [TW7, Elem.children] at hc
    rcases hc with rfl | rfl | rfl <;> rfl


/-- Counterexample to C2 as stated: in tree `T2`, `base_link` has two
outgoing joints, the first without a rotation and the second with
`rpy = (0,0,pi/2)`.  Under the claim, the scale propagated to the next frame
would be re-expressed using *only the first* matching joint's rotation —
i.e. it would remain the base scale `(2,1,1)`.  The recorded trace shows the
scale at the second processed link is `(1,2,1)`: the second joint's rotation
mutated the propagated scale as well. -/
theorem c2_counterexample :
    (rescaleTree T2 ⟨2, 1, 1⟩ ⟨1, 1, 1⟩).map ROut.linkScales =
      .ok [⟨2, 1, 1⟩, ⟨1, 2, 1⟩] ∧ Vec3.mk 1 2 1 ≠ Vec3.mk 2 1 1 := by
  constructor
  · simp [rescaleTree, rescaleLoop, jointFold, jointStep, jfScale, T2,
      findLinkIdx, jointIdxs, jointIdxs.go, setChild, applyLinkAt,
      applyLinkAt.applyLinkAtL, mapEl, mapEl.mapElL, gMesh, gOrigin, gAxis,
      gLink, iterN, getA, setA, getS, getV, Elem.tag, Elem.children,
      Elem.sattrs, Elem.vattrs, nth, findSub, jointParentLink,
      jointChildLink, vmul, vdiv, vabs, vdivS, Except.map, rotate_vector_3d,
      rotX, rotY, rotZ, Real.cos_zero, Real.sin_zero, Real.cos_pi_div_two,
      Real.sin_pi_div_two]
  · intro hv
    rw [Vec3.mk.injEq] at hv
    norm_num at hv

/-- C2 (amended): when a link has several outgoing joints, the loop
processes them all; the recursion continues with the *first* matching
joint's child, but the propagated scale is the incoming scale folded through
the rotations of *every* matching joint in document order (each joint with
an `rpy` rotates it; the others pass it through).  `rotStep` reads each
joint's `rpy` off the tree as it was when the loop started, which is sound
because the loop never writes `rpy` attributes. -/
theorem c2_amended_fold {i0 : Nat} {idxs : List Nat} {t : Elem} {s : Vec3}
    {ax : List Vec3} {nm : Option String} {t' : Elem} {s' : Vec3}
    {ax' : List Vec3} {nm' : Option String}
    (h : jointFold i0 t s ax nm idxs = .ok (t', s', ax', nm'))
    (hne : idxs ≠ []) :
    s' = idxs.foldl (rotStep t) s ∧
      ∃ j0, nth t.children i0 = some j0 ∧ nm' = jointChildLink j0 :=
  jointFold_scale_name h hne

/-- Witness for C2 (amended) on the concrete joint list of `T2`. -/
theorem c2_witness :
    ∃ t' s' ax' nm',
      jointFold 1 T2 ⟨2, 1, 1⟩ [] none [1, 2] = .ok (t', s', ax', nm') ∧
      ([1, 2] : List Nat) ≠ [] ∧
      s' = [1, 2].foldl (rotStep T2) ⟨2, 1, 1⟩ ∧
      ∃ j0, nth T2.children 1 = some j0 ∧ nm' = jointChildLink j0 := by
  cases hE : jointFold 1 T2 ⟨2, 1, 1⟩ [] none [1, 2] with
  | error e =>
    simp [jointFold, jointStep, jfScale, T2, setChild, mapEl, mapEl.mapElL,
      gMesh, gOrigin, gAxis, gLink, iterN, getA, setA, getS, getV, Elem.tag,
      Elem.children, Elem.sattrs, Elem.vattrs, nth, findSub, jointParentLink,
      jointChildLink, vmul, vdiv, vabs, vdivS] at hE
  | ok r =>
    obtain ⟨t', s', ax', nm'⟩ := r
    obtain ⟨h1, h2⟩ := c2_amended_fold hE (by simp)
    exact ⟨t', s', ax', nm', rfl, by simp, h1, h2⟩

/-- C4: `load` is idempotent and the loaded flag is one-way.  After a first
`load` from the unloaded state: the flag is set; a second `load` returns the
identical handle, the identical engine state and the identical object state;
the second call's result does not depend on the creation callback at all (no
engine creation call is issued); and `load` never clears an already-set
flag.  The pose operations do not touch the object state by construction
(they only read `body_id`), so no operation of the module resets the
flag. -/
theorem c4_load_idempotent (ld : Engine → Engine × Nat) (o : ObjSt)
    (e : Engine) (h : o.loaded = false) :
    (load ld o e).1.loaded = true ∧
    load ld (load ld o e).1 (load ld o e).2.1 =
      ((load ld o e).1, (load ld o e).2.1, (load ld o e).2.2) ∧
    (∀ ld', load ld' (load ld o e).1 (load ld o e).2.1 =
      load ld (load ld o e).1 (load ld o e).2.1) ∧
    (∀ (o' : ObjSt) (e' : Engine), o'.loaded = true →
      (load ld o' e').1.loaded = true) := by
  refine ⟨by simp [load, h], by simp [load, h], fun ld' => by simp [load, h],
    fun o' e' h' => by simp [load, h']⟩

/-- Witness for C4: a fresh object loaded twice against an engine modelled
after `createMultiBody`. -/
theorem c4_witness :
    objInit.loaded = false ∧
    ((load (mkBody P0) objInit E0).1.loaded = true ∧
     load (mkBody P0) (load (mkBody P0) objInit E0).1
        (load (mkBody P0) objInit E0).2.1 =
       ((load (mkBody P0) objInit E0).1, (load (mkBody P0) objInit E0).2.1,
        (load (mkBody P0) objInit E0).2.2) ∧
     (∀ ld', load ld' (load (mkBody P0) objInit E0).1
        (load (mkBody P0) objInit E0).2.1 =
       load (mkBody P0) (load (mkBody P0) objInit E0).1
        (load (mkBody P0) objInit E0).2.1) ∧
     (∀ (o' : ObjSt) (e' : Engine), o'.loaded = true →
      (load (mkBody P0) o' e').1.loaded = true)) :=
  ⟨rfl, c4_load_idempotent (mkBody P0) objInit E0 rfl⟩

/-- Counterexample to C5 as stated: on a fresh (unloaded) object, every pose
accessor and mutator fails with the engine's own error — the module performs
no loaded-state check and never raises the `NotLoadedError` the
specification names. -/
theorem c5_counterexample :
    get_position objInit E0 ≠ .error .notLoadedError ∧
    get_orientation objInit E0 ≠ .error .notLoadedError ∧
    set_position objInit E0 ⟨1, 2, 3⟩ ≠ .error .notLoadedError ∧
    set_orientation objInit E0 ⟨0, 0, 0, 1⟩ ≠ .error .notLoadedError ∧
    set_position_orientation objInit E0 ⟨1, 2, 3⟩ ⟨0, 0, 0, 1⟩ ≠
      .error .notLoadedError := by
  refine ⟨?_, ?_, ?_, ?_, ?_⟩ <;>
    simp [get_position, get_orientation, set_position, set_orientation,
      set_position_orientation, getBasePositionAndOrientation,
      resetBasePositionAndOrientation, objInit, E0, Except.map]

/-- C5 (amended): a pose accessor or mutator called while the body handle is
still `None` passes the null handle to the engine unchecked; the failure is
the engine call's `engineError`, not a `NotLoadedError` (which the module
never raises). -/
theorem c5_amended_engine_error (o : ObjSt) (e : Engine) (pos : Vec3)
    (orn : Vec4) (h : o.body_id = none) :
    get_position o e = .error .engineError ∧
    get_orientation o e = .error .engineError ∧
    set_position o e pos = .error .engineError ∧
    set_orientation o e orn = .error .engineError ∧
    set_position_orientation o e pos orn = .error .engineError := by
  refine ⟨?_, ?_, ?_, ?_, ?_⟩ <;>
    simp [get_position, get_orientation, set_position, set_orientation,
      set_position_orientation, getBasePositionAndOrientation,
      resetBasePositionAndOrientation, h, Except.map]

/-- Witness for C5 (amended) on a fresh object. -/
theorem c5_witness :
    objInit.body_id = none ∧
    (get_position objInit E0 = .error .engineError ∧
     get_orientation objInit E0 = .error .engineError ∧
     set_position objInit E0 ⟨1, 2, 3⟩ = .error .engineError ∧
     set_orientation objInit E0 ⟨0, 0, 0, 1⟩ = .error .engineError ∧
     set_position_orientation objInit E0 ⟨1, 2, 3⟩ ⟨0, 0, 0, 1⟩ =
       .error .engineError) :=
  ⟨rfl, c5_amended_engine_error objInit E0 ⟨1, 2, 3⟩ ⟨0, 0, 0, 1⟩ rfl⟩

/-- C10: for a loaded object whose body exists in the engine,
`set_position` writes the new position paired with the orientation read
immediately before the call, leaving the orientation and every other body's
pose unchanged; symmetrically `set_orientation` changes only the
orientation. -/
theorem c10_set_pose_frame (o : ObjSt) (e : Engine) (i : Nat) (ps : Pose)
    (pos : Vec3) (orn : Vec4) (hb : o.body_id = some i)
    (he : getA e.bodies i = some ps) :
    (∃ e', set_position o e pos = .ok e' ∧
      getA e'.bodies i = some ⟨pos, ps.orn⟩ ∧
      ∀ j, j ≠ i → getA e'.bodies j = getA e.bodies j) ∧
    (∃ e'', set_orientation o e orn = .ok e'' ∧
      getA e''.bodies i = some ⟨ps.pos, orn⟩ ∧
      ∀ j, j ≠ i → getA e''.bodies j = getA e.bodies j) := by
  constructor
  · refine ⟨⟨setA e.bodies i ⟨pos, ps.orn⟩, e.nextUid⟩, ?_, ?_, ?_⟩
    · simp [set_position, getBasePositionAndOrientation,
        resetBasePositionAndOrientation, hb, he]
    · simp [getA_setA_self]
    · intro j hj
      simp [getA_setA_ne _ _ _ _ (fun hh => hj hh.symm)]
  · refine ⟨⟨setA e.bodies i ⟨ps.pos, orn⟩, e.nextUid⟩, ?_, ?_, ?_⟩
    · simp [set_orientation, getBasePositionAndOrientation,
        resetBasePositionAndOrientation, hb, he]
    · simp [getA_setA_self]
    · intro j hj
      simp [getA_setA_ne _ _ _ _ (fun hh => hj hh.symm)]

/-- Witness for C10 on the one-body engine `E1`. -/
theorem c10_witness :
    (⟨some 0, true⟩ : ObjSt).body_id = some 0 ∧
    getA E1.bodies 0 = some P0 ∧
    ((∃ e', set_position ⟨some 0, true⟩ E1 ⟨5, 6, 7⟩ = .ok e' ∧
      getA e'.bodies 0 = some ⟨⟨5, 6, 7⟩, P0.orn⟩ ∧
      ∀ j, j ≠ 0 → getA e'.bodies j = getA E1.bodies j) ∧
    (∃ e'', set_orientation ⟨some 0, true⟩ E1 ⟨1, 0, 0, 0⟩ = .ok e'' ∧
      getA e''.bodies 0 = some ⟨P0.pos, ⟨1, 0, 0, 0⟩⟩ ∧
      ∀ j, j ≠ 0 → getA e''.bodies j = getA E1.bodies j)) :=
  ⟨rfl, rfl, c10_set_pose_frame ⟨some 0, true⟩ E1 0 P0 ⟨5, 6, 7⟩
    ⟨1, 0, 0, 0⟩ rfl rfl⟩

/-- Counterexample to C6 as stated: with a zero first component in the
original bounding box, construction does not fail with `MalformedTreeError`
— the module performs no validation at all (in the float code
`np.divide` emits a warning and produces non-finite values, raising
nothing). -/
theorem c6_counterexample :
    rescaleTree T1 ⟨2, 1, 1/2⟩ ⟨0, 1, 1⟩ ≠ .error .malformedTree := by
  simp [rescaleTree, rescaleLoop, jointFold, jointStep, jfScale, T1,
    findLinkIdx, jointIdxs, jointIdxs.go, setChild, applyLinkAt,
    applyLinkAt.applyLinkAtL, mapEl, mapEl.mapElL, gMesh, gOrigin, gAxis,
    gLink, iterN, getA, setA, getS, getV, Elem.tag, Elem.children,
    Elem.sattrs, Elem.vattrs, nth, findSub, jointParentLink, jointChildLink,
    vmul, vdiv, vabs, vdivS]

/-- C6 (amended): the constructor never validates `original_bbox`: for any
boxes — in particular any with a zero or near-zero component — the
unguarded base-scale division is performed and the rescaling pass completes
without error, recording the divided scale unchanged (no engine call is
involved; the engine is only contacted later by `_load`). -/
theorem c6_amended_no_validation (bb ob : Vec3)
    (_h : ob.x = 0 ∨ ob.y = 0 ∨ ob.z = 0) :
    (rescaleTree T1 bb ob).map ROut.linkScales = .ok [vdiv bb ob] := by
  simp [rescaleTree, rescaleLoop, jointFold, jointStep, jfScale, T1,
    findLinkIdx, jointIdxs, jointIdxs.go, setChild, applyLinkAt,
    applyLinkAt.applyLinkAtL, mapEl, mapEl.mapElL, gMesh, gOrigin, gAxis,
    gLink, iterN, getA, setA, getS, getV, Elem.tag, Elem.children,
    Elem.sattrs, Elem.vattrs, nth, findSub, jointParentLink, jointChildLink,
    vabs, vdivS, Except.map]

/-- Witness for C6 (amended) at a concrete zero-component box. -/
theorem c6_witness :
    ((0 : ℝ) = 0 ∨ (1 : ℝ) = 0 ∨ (1 : ℝ) = 0) ∧
    (rescaleTree T1 ⟨2, 1, 1/2⟩ ⟨0, 1, 1⟩).map ROut.linkScales =
      .ok [vdiv ⟨2, 1, 1/2⟩ ⟨0, 1, 1⟩] :=
  ⟨Or.inl rfl,
    c6_amended_no_validation ⟨2, 1, 1/2⟩ ⟨0, 1, 1⟩ (Or.inl rfl)⟩

/-- Counterexample to C9 as stated: rescaling `T9`, whose joint axis is the
zero vector, does not fail with `DegenerateAxisError` — the normalization
division is unguarded. -/
theorem c9_counterexample :
    rescaleTree T9 ⟨2, 1, 1⟩ ⟨1, 1, 1⟩ ≠ .error .degenerateAxis := by
  simp [rescaleTree, rescaleLoop, jointFold, jointStep, jfScale, T9,
    findLinkIdx, jointIdxs, jointIdxs.go, setChild, applyLinkAt,
    applyLinkAt.applyLinkAtL, mapEl, mapEl.mapElL, gMesh, gOrigin, gAxis,
    gLink, iterN, getA, setA, getS, getV, Elem.tag, Elem.children,
    Elem.sattrs, Elem.vattrs, nth, findSub, jointParentLink, jointChildLink,
    vmul, vdiv, vabs, vdivS]

/-- C9 (amended): a motion axis of zero magnitude is scaled and then divided
by its zero norm without any guard; construction completes without raising.
In the real-number model the axis ends as the zero vector (division by zero
is zero); the float code produces NaN components from `0/0`, again raising
no error. -/
theorem c9_amended_zero_axis :
    (rescaleTree T9 ⟨2, 1, 1⟩ ⟨1, 1, 1⟩).map (fun o => axisXyzs o.tree) =
      .ok [some ⟨0, 0, 0⟩] := by
  simp [rescaleTree, rescaleLoop, jointFold, jointStep, jfScale, T9,
    findLinkIdx, jointIdxs, jointIdxs.go, setChild, applyLinkAt,
    applyLinkAt.applyLinkAtL, mapEl, mapEl.mapElL, gMesh, gOrigin, gAxis,
    gLink, iterN, getA, setA, getS, getV, Elem.tag, Elem.children,
    Elem.sattrs, Elem.vattrs, nth, findSub, jointParentLink, jointChildLink,
    vmul, vdiv, vabs, vdivS, norm3, Except.map, axisXyzs, axisXyzs.axisXyzsL,
    Real.sqrt_zero]

/-- C1 (evaluated at the failing input): the base scale is computed as
claimed, `(2,1,0.5)`, but a mesh owned by the root link with no existing
scale does *not* end with that scale set once: `Element.iter` yields the
element itself, so the nested mesh loop updates a mesh at depth `d` below
the link `d+1` times.  For a mesh that is a direct child of `base_link` the
scale is set and then multiplied once more, ending at `(4,1,0.25)`; at the
standard URDF depth (link/visual/geometry/mesh) it would end at the fourth
power. -/
theorem c1_mesh_rescale_eval :
    (rescaleTree T1 ⟨2, 1, 1/2⟩ ⟨1, 1, 1⟩).map ROut.linkScales =
      .ok [⟨2, 1, 1/2⟩] ∧
    (rescaleTree T1 ⟨2, 1, 1/2⟩ ⟨1, 1, 1⟩).map (fun o => meshScales o.tree) =
      .ok [some ⟨4, 1, 1/4⟩] ∧
    Vec3.mk 4 1 (1/4) ≠ Vec3.mk 2 1 (1/2) := by
  refine ⟨?_, ?_, ?_⟩
  · simp [rescaleTree, rescaleLoop, jointFold, jointStep, jfScale, T1,
      findLinkIdx, jointIdxs, jointIdxs.go, setChild, applyLinkAt,
      applyLinkAt.applyLinkAtL, mapEl, mapEl.mapElL, gMesh, gOrigin, gAxis,
      gLink, iterN, getA, setA, getS, getV, Elem.tag, Elem.children,
      Elem.sattrs, Elem.vattrs, nth, findSub, jointParentLink,
      jointChildLink, vmul, vdiv, vabs, vdivS, Except.map]
  · simp [rescaleTree, rescaleLoop, jointFold, jointStep, jfScale, T1,
      findLinkIdx, jointIdxs, jointIdxs.go, setChild, applyLinkAt,
      applyLinkAt.applyLinkAtL, mapEl, mapEl.mapElL, gMesh, gOrigin, gAxis,
      gLink, iterN, getA, setA, getS, getV, Elem.tag, Elem.children,
      Elem.sattrs, Elem.vattrs, nth, findSub, jointParentLink,
      jointChildLink, vmul, vdiv, vabs, vdivS, Except.map, meshScales,
      meshScales.meshScalesL]
    norm_num
  · intro hv
    rw [Vec3.mk.injEq] at hv
    norm_num at hv


theorem norm3_vdivS_pos {v : Vec3} {n : ℝ} (hn : 0 < n) :
    norm3 (vdivS v n) = norm3 v / n := by
  unfold norm3 vdivS
  simp only
  rw [div_pow, div_pow, div_pow, div_add_div_same, div_add_div_same,
    Real.sqrt_div (by positivity), Real.sqrt_sq hn.le]

theorem cos_theta13 : Real.cos theta13 = 12 / 13 := by
  unfold theta13
  rw [Real.cos_arccos (by norm_num) (by norm_num)]

theorem sin_theta13 : Real.sin theta13 = 5 / 13 := by
  unfold theta13
  rw [Real.sin_arccos,
    show (1 : ℝ) - (12 / 13) ^ 2 = (5 / 13) ^ 2 by norm_num]
  exact Real.sqrt_sq (by norm_num)

theorem axis_roundtrip {a bb ob : Vec3}
    (hbx : bb.x ≠ 0) (hby : bb.y ≠ 0) (hbz : bb.z ≠ 0)
    (hox : ob.x ≠ 0) (hoy : ob.y ≠ 0) (hoz : ob.z ≠ 0)
    (ha : norm3 a = 1) :
    vdivS (vmul (vdivS (vmul a (vdiv bb ob)) (norm3 (vmul a (vdiv bb ob))))
        (vdiv ob bb))
      (norm3 (vmul (vdivS (vmul a (vdiv bb ob))
          (norm3 (vmul a (vdiv bb ob)))) (vdiv ob bb))) = a := by
  have hanz : a.nonzero := nonzero_of_norm3_one ha
  have hsx : (vdiv bb ob).x ≠ 0 := div_ne_zero hbx hox
  have hsy : (vdiv bb ob).y ≠ 0 := div_ne_zero hby hoy
  have hsz : (vdiv bb ob).z ≠ 0 := div_ne_zero hbz hoz
  have hw : (vmul a (vdiv bb ob)).nonzero :=
    vmul_nonzero hanz ⟨hsx, hsy, hsz⟩
  have hnpos : 0 < norm3 (vmul a (vdiv bb ob)) := norm3_pos hw
  set n := norm3 (vmul a (vdiv bb ob)) with hnd
  have hnne : n ≠ 0 := hnpos.ne'
  have h4 : vmul (vdivS (vmul a (vdiv bb ob)) n) (vdiv ob bb) =
      vdivS a n := by
    simp only [vmul, vdivS, vdiv, Vec3.mk.injEq]
    refine ⟨?_, ?_, ?_⟩ <;> field_simp <;> ring
  rw [h4, norm3_vdivS_pos hnpos, ha]
  refine Vec3.ext ?_ ?_ ?_ <;> simp only [vdivS] <;> field_simp

/-- Counterexample to C3 as stated: the tree `T3x` has a joint rotated by
`theta13` (cosine 12/13) about z.  Rescaling to bounding box `(2,1,1)` from
`(1,1,1)` and rescaling the result back with the inverse scale does not
recover the second joint's origin: rotating a scale vector does not commute
with taking its elementwise inverse, so the scale propagated past the
rotated joint in the second pass is not the inverse of the one used in the
first.  The origin `(1,1,1)` comes back as `(19/169, 319/169, 1)`. -/
theorem c3_counterexample :
    (roundTrip T3x ⟨2, 1, 1⟩ ⟨1, 1, 1⟩).map originXyzs =
      .ok [some ⟨1, 1, 1⟩, some ⟨19/169, 319/169, 1⟩] ∧
    Vec3.mk (19/169) (319/169) 1 ≠ Vec3.mk 1 1 1 := by
  constructor
  · simp [roundTrip, rescaleTree, rescaleLoop, jointFold, jointStep, jfScale,
      T3x, findLinkIdx, jointIdxs, jointIdxs.go, setChild, applyLinkAt,
      applyLinkAt.applyLinkAtL, mapEl, mapEl.mapElL, gMesh, gOrigin, gAxis,
      gLink, iterN, getA, setA, getS, getV, Elem.tag, Elem.children,
      Elem.sattrs, Elem.vattrs, nth, findSub, jointParentLink,
      jointChildLink, vmul, vdiv, vabs, vdivS, Except.map, originXyzs,
      originXyzs.originXyzsL, rotate_vector_3d, rotX, rotY, rotZ,
      Real.cos_zero, Real.sin_zero, cos_theta13, sin_theta13]
    norm_num [abs_of_nonneg]
  · intro hv
    rw [Vec3.mk.injEq] at hv
    norm_num at hv

set_option maxHeartbeats 1600000 in
/-- C3 (amended): the round-trip law does hold on rotation-free trees.  For
the family `T3` — a two-link chain with arbitrary real-valued mesh scales,
mesh with no scale attribute, origins at depth inside the link, a joint
origin, and a unit motion axis, and no `rpy` anywhere — rescaling to any
componentwise-nonzero target box and rescaling the result back with the
inverse scale recovers every mesh scale (a mesh that had no scale attribute
ends at the neutral scale `(1,1,1)`), every origin translation, and the
motion axis exactly.  With a joint rotation the law fails, as the
counterexample shows. -/
theorem c3_amended_roundtrip (c0 o1 oJ a o2 bb ob : Vec3)
    (hbx : bb.x ≠ 0) (hby : bb.y ≠ 0) (hbz : bb.z ≠ 0)
    (hox : ob.x ≠ 0) (hoy : ob.y ≠ 0) (hoz : ob.z ≠ 0)
    (ha : norm3 a = 1) :
    (roundTrip (T3 c0 o1 oJ a o2) bb ob).map meshScales =
      .ok [some c0, some ⟨1, 1, 1⟩] ∧
    (roundTrip (T3 c0 o1 oJ a o2) bb ob).map originXyzs =
      .ok [some o1, some oJ, some o2] ∧
    (roundTrip (T3 c0 o1 oJ a o2) bb ob).map axisXyzs = .ok [some a] := by
  refine ⟨?_, ?_, ?_⟩
  · simp [roundTrip, rescaleTree, rescaleLoop, jointFold, jointStep, jfScale,
      T3, findLinkIdx, jointIdxs, jointIdxs.go, setChild, applyLinkAt,
      applyLinkAt.applyLinkAtL, mapEl, mapEl.mapElL, gMesh, gOrigin, gAxis,
      gLink, iterN, getA, setA, getS, getV, Elem.tag, Elem.children,
      Elem.sattrs, Elem.vattrs, nth, findSub, jointParentLink,
      jointChildLink, vmul, vdiv, Except.map, meshScales,
      meshScales.meshScalesL, Vec3.mk.injEq]
    refine ⟨Vec3.ext ?_ ?_ ?_, ?_, ?_, ?_⟩ <;> (try field_simp) <;>
      (try ring)
  · simp [roundTrip, rescaleTree, rescaleLoop, jointFold, jointStep, jfScale,
      T3, findLinkIdx, jointIdxs, jointIdxs.go, setChild, applyLinkAt,
      applyLinkAt.applyLinkAtL, mapEl, mapEl.mapElL, gMesh, gOrigin, gAxis,
      gLink, iterN, getA, setA, getS, getV, Elem.tag, Elem.children,
      Elem.sattrs, Elem.vattrs, nth, findSub, jointParentLink,
      jointChildLink, vmul, vdiv, Except.map, originXyzs,
      originXyzs.originXyzsL, Vec3.mk.injEq]
    refine ⟨Vec3.ext ?_ ?_ ?_, Vec3.ext ?_ ?_ ?_, Vec3.ext ?_ ?_ ?_⟩ <;>
      (try field_simp) <;> (try ring)
  · simp [roundTrip, rescaleTree, rescaleLoop, jointFold, jointStep,
      jfScale, T3, findLinkIdx, jointIdxs, jointIdxs.go, setChild,
      applyLinkAt, applyLinkAt.applyLinkAtL, mapEl, mapEl.mapElL, gMesh,
      gOrigin, gAxis, gLink, iterN, getA, setA, getS, getV, Elem.tag,
      Elem.children, Elem.sattrs, Elem.vattrs, nth, findSub, jointParentLink,
      jointChildLink, Except.map, axisXyzs, axisXyzs.axisXyzsL]
    exact axis_roundtrip hbx hby hbz hox hoy hoz ha

/-- Witness for C3 (amended) at a concrete instance of the family. -/
theorem c3_witness :
    ((2 : ℝ) ≠ 0 ∧ (1 : ℝ) ≠ 0 ∧ (4 : ℝ) ≠ 0) ∧ norm3 ⟨1, 0, 0⟩ = 1 ∧
    ((roundTrip (T3 ⟨5, 6, 7⟩ ⟨1, 2, 3⟩ ⟨4, 5, 6⟩ ⟨1, 0, 0⟩ ⟨7, 8, 9⟩)
        ⟨2, 1, 4⟩ ⟨1, 1, 1⟩).map meshScales =
      .ok [some ⟨5, 6, 7⟩, some ⟨1, 1, 1⟩] ∧
    (roundTrip (T3 ⟨5, 6, 7⟩ ⟨1, 2, 3⟩ ⟨4, 5, 6⟩ ⟨1, 0, 0⟩ ⟨7, 8, 9⟩)
        ⟨2, 1, 4⟩ ⟨1, 1, 1⟩).map originXyzs =
      .ok [some ⟨1, 2, 3⟩, some ⟨4, 5, 6⟩, some ⟨7, 8, 9⟩] ∧
    (roundTrip (T3 ⟨5, 6, 7⟩ ⟨1, 2, 3⟩ ⟨4, 5, 6⟩ ⟨1, 0, 0⟩ ⟨7, 8, 9⟩)
        ⟨2, 1, 4⟩ ⟨1, 1, 1⟩).map axisXyzs = .ok [some ⟨1, 0, 0⟩]) := by
  have hu : norm3 ⟨1, 0, 0⟩ = 1 := by
    rw [norm3]
    norm_num [Real.sqrt_one]
  exact ⟨⟨by norm_num, by norm_num, by norm_num⟩, hu,
    c3_amended_roundtrip ⟨5, 6, 7⟩ ⟨1, 2, 3⟩ ⟨4, 5, 6⟩ ⟨1, 0, 0⟩ ⟨7, 8, 9⟩
      ⟨2, 1, 4⟩ ⟨1, 1, 1⟩ (by norm_num) (by norm_num) (by norm_num)
      (by norm_num) (by norm_num) (by norm_num) hu⟩

end
